import Mathlib

set_option maxRecDepth 8000

/-!
Verification development for the LinkedIn comments scanner
(`linkedin-comments-scanner_v0.6.0.js`).

The source is shallowly embedded: text is `List Char`, the DOM feed is a
list of `Post` values (one per item element), the mutable `ScannerState`
object is threaded explicitly, and the timer-driven scroll/validate cycle
is modelled as a discrete-event simulation with explicit pending events.
-/

abbrev Chars := List Char

/-- Whitespace class used by the cleaning regular expression of
`Utils.extractNumber` (space, tab, newline, carriage return, vertical tab,
form feed, no-break space). -/
def isSpaceChar (c : Char) : Bool :=
  c = ' ' || c = '\t' || c = '\n' || c = '\r' || c = '\x0b' || c = '\x0c' || c = ' '

/-- The cleaning step of `Utils.extractNumber`: remove every dot, comma and
whitespace character (the three global `replace` calls). -/
def cleanText (s : Chars) : Chars :=
  s.filter (fun c => !(c = '.' || c = ',' || isSpaceChar c))

/-- First match of the regular expression digit-run search (`match(/\d+/)`):
the first maximal run of decimal digits, if any. -/
def firstDigitMatch : Chars → Option Chars
  | [] => none
  | c :: rest =>
    if c.isDigit then some ((c :: rest).takeWhile Char.isDigit)
    else firstDigitMatch rest

/-- Decimal value of a digit string (`parseInt(s, 10)` on an all-digit
string). -/
def decToNat (ds : Chars) : Nat :=
  ds.foldl (fun a c => 10 * a + (c.toNat - 48)) 0

/-- `Utils.extractNumber`: clean the text, take the first digit run,
parse it; default `0` when no digits remain. -/
def extractNumber (s : Chars) : Nat :=
  match firstDigitMatch (cleanText s) with
  | some run => decToNat run
  | none => 0

def digitChar (d : Nat) : Char :=
  match d with
  | 0 => '0' | 1 => '1' | 2 => '2' | 3 => '3' | 4 => '4'
  | 5 => '5' | 6 => '6' | 7 => '7' | 8 => '8' | _ => '9'

def natToDecAux : Nat → Nat → Chars → Chars
  | 0, _, acc => acc
  | fuel + 1, n, acc =>
    if n < 10 then digitChar n :: acc
    else natToDecAux fuel (n / 10) (digitChar (n % 10) :: acc)

/-- Decimal rendering of a number (`String(n)` on a non-negative integer). -/
def natToDec (n : Nat) : Chars := natToDecAux (n + 1) n []

/-- `String.prototype.trim`, restricted to the whitespace class above. -/
def trimText (s : Chars) : Chars :=
  ((s.dropWhile isSpaceChar).reverse.dropWhile isSpaceChar).reverse

/-- `hay.indexOf(needle) !== -1`. -/
def hasSubstr (hay needle : Chars) : Bool :=
  if needle.isPrefixOf hay then true
  else
    match hay with
    | [] => false
    | _ :: t => hasSubstr t needle

/-- One feed item element: its own `data-id` attribute, the `data-id`
found by the ancestor walk (`Utils.getParentWithDataId`), and the comment
button (`none` when absent; `some sp` where `sp` is the inner
`aria-hidden` span text, `none` when the span is absent). -/
structure Post where
  ownDataId : Option Chars
  ancestorDataId : Option Chars
  button : Option (Option Chars)
deriving DecidableEq

/-- One collected record (`{ link, comments, postNode }`). -/
structure Result where
  link : Chars
  comments : Nat
  postNode : Post
deriving DecidableEq

/-- The mutable fields of `ScannerState` relevant to the scanning core
(UI-only fields such as overlay position are outside the specified core).
`intervalActive` models `scrollInterval !== null`; `observerActive` models
`mutationObserver !== null`. -/
structure ScannerState where
  scrollCount : Nat
  results : List Result
  seenPostIds : List Chars
  paused : Bool
  scrollFailureDetected : Bool
  scrollRetryCount : Nat
  lastScrollHeight : Int
  contentLoaded : Bool
  commentThreshold : Nat
  intervalActive : Bool
  observerActive : Bool
deriving DecidableEq

/-- `CONFIG.COMMENT_THRESHOLDS`. -/
def commentThresholds : List Nat := [20, 50, 100, 200, 500]

/-- `CONFIG.DEFAULT_THRESHOLD`. -/
def defaultThreshold : Nat := 100

/-- `CONFIG.MAX_SCROLL_RETRIES`. -/
def maxScrollRetries : Nat := 3

/-- `CONFIG.MAX_SCROLLS`. -/
def maxScrolls : Nat := 200

/-- `CONFIG.SCROLL_END_MARGIN`. -/
def scrollEndMargin : Int := 150

/-- The fixed URL stem used to synthesize a record link from a `data-id`. -/
def linkBase : Chars := "https://www.linkedin.com/feed/update/".toList

/-- The namespaced-activity token required in a valid `data-id`. -/
def activityTag : Chars := "activity:".toList

/-- Fresh `ScannerState` (constructor, with the persistence collaborator
absent so the saved-threshold lookup falls back to the default). -/
def initScanner : ScannerState :=
  { scrollCount := 0, results := [], seenPostIds := [], paused := false,
    scrollFailureDetected := false, scrollRetryCount := 0, lastScrollHeight := 0,
    contentLoaded := false, commentThreshold := defaultThreshold,
    intervalActive := false, observerActive := false }

/-- `ScannerState.setThreshold`: accept only members of
`CONFIG.COMMENT_THRESHOLDS`, otherwise leave the state untouched. -/
def setThreshold (st : ScannerState) (v : Nat) : ScannerState :=
  if commentThresholds.contains v then { st with commentThreshold := v } else st

/-- `ScannerState.reset`. -/
def resetState (st : ScannerState) : ScannerState :=
  { st with scrollCount := 0, scrollFailureDetected := false,
            scrollRetryCount := 0, paused := false }

/-- `ScannerState.addResult`: reject when some stored record has the same
link, otherwise `unshift` at the head and accept. -/
def addResult (st : ScannerState) (r : Result) : ScannerState × Bool :=
  if st.results.any (fun x => decide (x.link = r.link)) then (st, false)
  else ({ st with results := r :: st.results }, true)

/-- `LinkedInScanner.stopScrolling`. -/
def stopScrolling (st : ScannerState) : ScannerState :=
  if st.intervalActive then { st with intervalActive := false } else st

/-- `LinkedInScanner.close`: stop the timer, disconnect the mutation
observer, remove the overlay (UI), then clear `seenPostIds` and
`results`. -/
def close (st : ScannerState) : ScannerState :=
  let st1 := stopScrolling st
  let st2 := if st1.observerActive then { st1 with observerActive := false } else st1
  { st2 with seenPostIds := [], results := [] }

/-- `LinkedInScanner.getPostDataId`: the element's own attribute when
truthy, else the ancestor walk result. -/
def getPostDataId (p : Post) : Option Chars :=
  match p.ownDataId with
  | some id => if id.isEmpty then p.ancestorDataId else some id
  | none => p.ancestorDataId

/-- The body of `LinkedInScanner.isValidPost` for a present identifier:
truthy, not yet seen, and containing the activity token. -/
def isValidId (st : ScannerState) (id : Chars) : Bool :=
  !id.isEmpty && !(decide (id ∈ st.seenPostIds)) && hasSubstr id activityTag

/-- `LinkedInScanner.isValidPost`. -/
def isValidPost (st : ScannerState) (dataId : Option Chars) : Bool :=
  match dataId with
  | none => false
  | some id => isValidId st id

/-- `LinkedInScanner.getCommentCount`: 0 when the comment button is absent;
otherwise the extracted number of the trimmed span text (empty text when
the span is absent). -/
def getCommentCount (p : Post) : Nat :=
  match p.button with
  | none => 0
  | some sp =>
    extractNumber (match sp with | some t => trimText t | none => [])

/-- Build the record `scanPosts` inserts for identifier `id` with comment
count `cc` on item `p`. -/
def mkRec (id : Chars) (cc : Nat) (p : Post) : Result :=
  { link := linkBase ++ id, comments := cc, postNode := p }

/-- One iteration of the `scanPosts` loop: skip items with a missing or
invalid identifier, mark valid identifiers seen, and submit the record to
`addResult` when the comment count reaches the threshold. Returns the
updated state and whether a new record was accepted. -/
def scanStep (st : ScannerState) (p : Post) : ScannerState × Bool :=
  match getPostDataId p with
  | none => (st, false)
  | some id =>
    if isValidId st id then
      let st1 := { st with seenPostIds := id :: st.seenPostIds }
      let cc := getCommentCount p
      if st1.commentThreshold ≤ cc then addResult st1 (mkRec id cc p)
      else (st1, false)
    else (st, false)

/-- Loop of `LinkedInScanner.scanPosts` over the currently present posts,
accumulating the `foundNew` counter. -/
def scanPostsGo (st : ScannerState) (found : Nat) : List Post → ScannerState × Nat
  | [] => (st, found)
  | p :: rest =>
    let pr := scanStep st p
    scanPostsGo pr.1 (if pr.2 then found + 1 else found) rest

/-- `LinkedInScanner.scanPosts`: returns the updated state and the number
of newly accepted records. -/
def scanPosts (st : ScannerState) (posts : List Post) : ScannerState × Nat :=
  scanPostsGo st 0 posts

/-- The scroll measurements available to one `validateScroll` call: the
pre-scroll snapshot and the recomputed `Utils.getScrollInfo` values, plus
whether `clickLoadMoreButton` finds a matching control at that moment. -/
structure ScrollEnv where
  prevScroll : Int
  prevHeight : Int
  currentScroll : Int
  currentHeight : Int
  windowHeight : Int
  loadMore : Bool
deriving DecidableEq

/-- Which continuation `validateScroll` takes (it drives what gets
scheduled afterwards). -/
inductive VOutcome
  | progressed
  | clickedLoadMore
  | scheduledRetry
  | failed
  | scannedAnyway
deriving DecidableEq

/-- `LinkedInScanner.handleScrollFailure`: pause, set the terminal failure
flag, cancel the timer. -/
def handleScrollFailure (st : ScannerState) : ScannerState :=
  stopScrolling { st with paused := true, scrollFailureDetected := true }

/-- `nearBottom` as computed by `Utils.getScrollInfo`. -/
def nearBottomOf (e : ScrollEnv) : Bool :=
  decide (e.currentHeight - scrollEndMargin ≤ e.currentScroll + e.windowHeight)

/-- `LinkedInScanner.validateScroll`: declare progress on extent growth
beyond 100, position movement beyond 50, or the mutation flag; otherwise
consult the load-more control when near the bottom; otherwise count a
retry, escalating to failure at `maxScrollRetries`. -/
def validateScroll (posts : List Post) (e : ScrollEnv) (st : ScannerState) :
    ScannerState × VOutcome :=
  let pageGrew := decide (e.prevHeight + 100 < e.currentHeight)
  let didScroll := decide (50 < (e.currentScroll - e.prevScroll).natAbs)
  if pageGrew || didScroll || st.contentLoaded then
    let st1 := { st with scrollRetryCount := 0 }
    ((scanPosts st1 posts).1, .progressed)
  else if nearBottomOf e then
    if e.loadMore then ({ st with scrollRetryCount := 0 }, .clickedLoadMore)
    else
      let st1 := { st with scrollRetryCount := st.scrollRetryCount + 1 }
      if maxScrollRetries ≤ st1.scrollRetryCount then (handleScrollFailure st1, .failed)
      else (st1, .scheduledRetry)
  else
    let st1 := { st with scrollRetryCount := st.scrollRetryCount + 1 }
    if maxScrollRetries ≤ st1.scrollRetryCount then (handleScrollFailure st1, .failed)
    else ((scanPosts st1 posts).1, .scannedAnyway)

/-- Iterate `validateScroll` over a list of measurement snapshots. -/
def runValidates (posts : List Post) (es : List ScrollEnv) (st : ScannerState) :
    ScannerState :=
  es.foldl (fun s e => (validateScroll posts e s).1) st

/-- A validation snapshot showing no progress: no extent growth beyond the
tolerance, no position change beyond the tolerance, and no load-more
control to activate. -/
def noProgressStall (e : ScrollEnv) : Prop :=
  ¬(e.prevHeight + 100 < e.currentHeight) ∧
  ¬(50 < (e.currentScroll - e.prevScroll).natAbs) ∧
  e.loadMore = false

instance (e : ScrollEnv) : Decidable (noProgressStall e) := by
  unfold noProgressStall; infer_instance

/-- The state-affecting operations of a scanning session, for stating
store invariants over arbitrary operation sequences. -/
inductive ScannerOp
  | scanOp (posts : List Post)
  | thresholdOp (v : Nat)
  | resetOp
  | closeOp

def runOp (st : ScannerState) : ScannerOp → ScannerState
  | .scanOp posts => (scanPosts st posts).1
  | .thresholdOp v => setThreshold st v
  | .resetOp => resetState st
  | .closeOp => close st

def runOps (ops : List ScannerOp) : ScannerState := ops.foldl runOp initScanner

/-- The raw identifier a stored record was synthesized from (the link with
the fixed URL stem removed). -/
def recIdOf (r : Result) : Chars := r.link.drop linkBase.length

/-- Deduplicating insertion keyed on the raw identifier instead of the
synthesized link; the identifier-level reading of `addResult`, for the
refinement comparison. -/
def addIfNewById (rs : List (Chars × Nat × Post)) (e : Chars × Nat × Post) :
    List (Chars × Nat × Post) :=
  if rs.any (fun x => decide (x.1 = e.1)) then rs else e :: rs

/-- Fold the source insertion (`addResult` on synthesized links) over a
sequence of extracted items. -/
def runLinkStore (ins : List (Chars × Nat × Post)) : ScannerState :=
  ins.foldl (fun st e => (addResult st (mkRec e.1 e.2.1 e.2.2)).1) initScanner

/-- Fold the identifier-keyed insertion over the same sequence. -/
def runIdStore (ins : List (Chars × Nat × Post)) : List (Chars × Nat × Post) :=
  ins.foldl addIfNewById []

/-- Quote-doubling of embedded quotes (`replace(/"/g, '""')`). -/
def escBody (f : Chars) : Chars :=
  f.flatMap (fun c => if c = '"' then ['"', '"'] else [c])

/-- One CSV cell of `downloadCSV`: quote-wrap with embedded quotes
doubled. -/
def escapeCell (f : Chars) : Chars := '"' :: escBody f ++ ['"']

/-- `Array.prototype.join` with a separator. -/
def joinWith (sep : Chars) : List Chars → Chars
  | [] => []
  | [x] => x
  | x :: y :: rest => x ++ sep ++ joinWith sep (y :: rest)

/-- One encoded CSV row of `downloadCSV`. -/
def encodeRow (row : List Chars) : Chars := joinWith [','] (row.map escapeCell)

/-- The regular expression `/activity:(\d+)/`: first position where the
activity token is immediately followed by at least one digit; the capture
is the maximal digit run there. -/
def activityIdFrom : Chars → Option Chars
  | [] => none
  | c :: rest =>
    if activityTag.isPrefixOf (c :: rest) then
      let run := ((c :: rest).drop activityTag.length).takeWhile Char.isDigit
      if run.isEmpty then activityIdFrom rest else some run
    else activityIdFrom rest

/-- The exported post identifier of a record: the captured activity digits
when the pattern matches, else the whole link. -/
def postIdOf (r : Result) : Chars :=
  match activityIdFrom r.link with
  | some ds => ds
  | none => r.link

/-- The header row of `downloadCSV`. -/
def csvHeader : List Chars := ["Post ID".toList, "URL".toList, "Comments".toList]

/-- The full table `downloadCSV` builds: header, then one row per record
in identifier, link, comment-count order. -/
def csvRowsOf (results : List Result) : List (List Chars) :=
  csvHeader :: results.map (fun r => [postIdOf r, r.link, natToDec r.comments])

/-- The CSV text of `downloadCSV` (rows escaped, joined by commas, lines
joined by newlines). -/
def csvContent (results : List Result) : Chars :=
  joinWith ['\n'] ((csvRowsOf results).map encodeRow)

/-- Parser mode for standard quote-wrapped CSV: before a field's opening
quote, inside the quotes, or just after a quote character. -/
inductive CsvMode
  | startField
  | inQuotes
  | afterQuote
deriving DecidableEq

/-- Modelled from the spec: the decoder half of the tabular round-trip
(the repository only encodes). Standard parsing of the specified form —
every field quote-wrapped, embedded quotes escaped by doubling, fields
separated by commas, rows by newlines. -/
def csvAux (m : CsvMode) (input : Chars) (field : Chars) (row : List Chars)
    (rows : List (List Chars)) : Option (List (List Chars)) :=
  match m, input with
  | .startField, [] => none
  | .startField, c :: rest =>
    if c = '"' then csvAux .inQuotes rest [] row rows else none
  | .inQuotes, [] => none
  | .inQuotes, c :: rest =>
    if c = '"' then csvAux .afterQuote rest field row rows
    else csvAux .inQuotes rest (c :: field) row rows
  | .afterQuote, [] => some (((field.reverse :: row).reverse :: rows).reverse)
  | .afterQuote, c :: rest =>
    if c = '"' then csvAux .inQuotes rest ('"' :: field) row rows
    else if c = ',' then csvAux .startField rest [] (field.reverse :: row) rows
    else if c = '\n' then
      csvAux .startField rest [] [] ((field.reverse :: row).reverse :: rows)
    else none

/-- Modelled from the spec: parse a whole CSV text into its table. -/
def parseCSV (cs : Chars) : Option (List (List Chars)) :=
  csvAux .startField cs [] [] []

/-- The deferred continuations of the scroll driver: an interval tick, the
post-scroll validation, the retry backoff, and the post-load-more scan. -/
inductive SimEv
  | tick
  | validateEv (prevScroll prevHeight : Int)
  | retryEv
  | scanEv
deriving DecidableEq

/-- The cooperative timeline: scanner state plus the pending timer
callbacks with their due times; `overlap` records whether a scroll command
was ever issued while another cycle's validation was still pending. -/
structure SimState where
  scanner : ScannerState
  pending : List (Nat × SimEv)
  overlap : Bool
deriving DecidableEq

def simWindowHeight : Int := 900

def simPageHeight : Int := 1000

/-- A static page: nothing grows, the scroll position never moves, no
load-more control exists, the viewport is near the bottom. -/
def simEnvFrom (prevScroll prevHeight : Int) : ScrollEnv :=
  { prevScroll := prevScroll, prevHeight := prevHeight,
    currentScroll := 0, currentHeight := simPageHeight,
    windowHeight := simWindowHeight, loadMore := false }

def isValidateEv : SimEv → Bool
  | .validateEv _ _ => true
  | _ => false

/-- `LinkedInScanner.scrollAndScan` on the static page: no-op when paused
or failed; otherwise bump the scroll counter, clear the mutation flag,
issue the scroll command and schedule validation 2500 ms later. The
`overlap` flag is set when the scroll command is issued while another
cycle's validation is still pending. -/
def simScrollAndScan (t : Nat) (s : SimState) : SimState :=
  if s.scanner.paused || s.scanner.scrollFailureDetected then s
  else
    let sc1 := { s.scanner with scrollCount := s.scanner.scrollCount + 1,
                                contentLoaded := false }
    if maxScrolls ≤ sc1.scrollCount then
      { s with scanner := stopScrolling { sc1 with paused := true } }
    else
      let overlapNow := s.pending.any (fun te => isValidateEv te.2)
      { scanner := sc1,
        overlap := s.overlap || overlapNow,
        pending := s.pending ++ [(t + 2500, .validateEv 0 simPageHeight)] }

/-- The validation continuation: run `validateScroll` and schedule what
its outcome schedules (retry backoff 5000 ms, post-load-more scan
2000 ms). -/
def simValidate (t : Nat) (prevScroll prevHeight : Int) (s : SimState) : SimState :=
  let pr := validateScroll [] (simEnvFrom prevScroll prevHeight) s.scanner
  match pr.2 with
  | .scheduledRetry =>
    { s with scanner := pr.1, pending := s.pending ++ [(t + 5000, .retryEv)] }
  | .clickedLoadMore =>
    { s with scanner := pr.1, pending := s.pending ++ [(t + 2000, .scanEv)] }
  | _ => { s with scanner := pr.1 }

/-- Fire one due callback. A tick re-arms itself 4000 ms later and runs
the scroll handler only while the interval is live. -/
def simDispatch (t : Nat) (ev : SimEv) (s : SimState) : SimState :=
  match ev with
  | .tick =>
    if s.scanner.intervalActive then
      simScrollAndScan t { s with pending := s.pending ++ [(t + 4000, .tick)] }
    else s
  | .validateEv ps ph => simValidate t ps ph s
  | .retryEv => simScrollAndScan t s
  | .scanEv => { s with scanner := (scanPosts s.scanner []).1 }

def earliestEv : List (Nat × SimEv) → Option (Nat × SimEv)
  | [] => none
  | e :: rest =>
    match earliestEv rest with
    | none => some e
    | some b => if e.1 ≤ b.1 then some e else some b

def removeOne (x : Nat × SimEv) : List (Nat × SimEv) → List (Nat × SimEv)
  | [] => []
  | a :: rest => if a = x then rest else a :: removeOne x rest

/-- Run the earliest pending callback. -/
def simStep (s : SimState) : SimState :=
  match earliestEv s.pending with
  | none => s
  | some ev => simDispatch ev.1 ev.2 { s with pending := removeOne ev s.pending }

/-- `startScanning`: run `scrollAndScan` once immediately, then arm the
4000 ms interval. -/
def simInit : SimState :=
  let base : SimState :=
    { scanner := { initScanner with intervalActive := true,
                                    lastScrollHeight := simPageHeight },
      pending := [], overlap := false }
  let s1 := simScrollAndScan 0 base
  { s1 with pending := s1.pending ++ [(4000, .tick)] }

def simRun : Nat → SimState
  | 0 => simInit
  | n + 1 => simStep (simRun n)

/-- Scenario A items: metrics 250, 50 and 10 on three distinct valid
activity identifiers. -/
def postA1 : Post :=
  { ownDataId := some "urn:li:activity:7001".toList, ancestorDataId := none,
    button := some (some "250".toList) }

def postA2 : Post :=
  { ownDataId := some "urn:li:activity:7002".toList, ancestorDataId := none,
    button := some (some "50".toList) }

def postA3 : Post :=
  { ownDataId := some "urn:li:activity:7003".toList, ancestorDataId := none,
    button := some (some "10".toList) }

def postsA : List Post := [postA1, postA2, postA3]

/-- A validation snapshot of a fully stalled page near the bottom. -/
def envStall : ScrollEnv :=
  { prevScroll := 0, prevHeight := 1000, currentScroll := 0,
    currentHeight := 1000, windowHeight := 900, loadMore := false }

/-- A state holding one collected record, about to be torn down. -/
def preCloseState : ScannerState :=
  { initScanner with
      results := [mkRec "urn:li:activity:7001".toList 250 postA1],
      seenPostIds := ["urn:li:activity:7001".toList],
      intervalActive := true, observerActive := true }

/-- A paused timeline, for exercising the tick guard. -/
def pausedSim : SimState :=
  { scanner := { initScanner with paused := true }, pending := [], overlap := false }

/-- Store invariant: every stored record's link is the fixed URL stem plus
an identifier, and no two stored records share a link. -/
def StoreInv (st : ScannerState) : Prop :=
  (∀ r ∈ st.results, ∃ i, r.link = linkBase ++ i) ∧
  (st.results.map Result.link).Nodup

/-- Every `ScannerState` field `scanPosts` does not touch, bundled, so the
frame of the extraction loop is one equation. -/
def driverFlags (st : ScannerState) :
    Nat × Bool × Bool × Bool × Nat × Bool × Nat × Int × Bool :=
  (st.scrollRetryCount, st.scrollFailureDetected, st.paused, st.contentLoaded,
   st.commentThreshold, st.intervalActive, st.scrollCount, st.lastScrollHeight,
   st.observerActive)

theorem addResult_fst_seen (st : ScannerState) (r : Result) :
    (addResult st r).1.seenPostIds = st.seenPostIds := by
  unfold addResult; split <;> rfl

theorem scanStep_flags (st : ScannerState) (p : Post) :
    driverFlags (scanStep st p).1 = driverFlags st := by
  unfold scanStep addResult
  cases getPostDataId p with
  | none => rfl
  | some id => dsimp only; split_ifs <;> rfl

theorem scanPostsGo_flags (ps : List Post) :
    ∀ (st : ScannerState) (f : Nat),
    driverFlags (scanPostsGo st f ps).1 = driverFlags st := by
  induction ps with
  | nil => intro st f; rfl
  | cons p rest ih =>
    intro st f
    exact (ih (scanStep st p).1 (if (scanStep st p).2 then f + 1 else f)).trans
      (scanStep_flags st p)

/-- Claim C9: setting the threshold with a member of the allowed set
updates it; any other value is rejected with the whole state unchanged. -/
theorem threshold_validation (st : ScannerState) (v : Nat) :
    (v ∈ commentThresholds → setThreshold st v = { st with commentThreshold := v }) ∧
    (v ∉ commentThresholds → setThreshold st v = st) := by
  constructor <;> intro h <;> simp [setThreshold, h]

theorem threshold_validation_witness :
    setThreshold initScanner 200 = { initScanner with commentThreshold := 200 } ∧
    setThreshold initScanner 33 = initScanner :=
  ⟨(threshold_validation initScanner 200).1 (by decide),
   (threshold_validation initScanner 33).2 (by decide)⟩

/-- Claim C8 (amended): explicit teardown cancels the periodic timer and
unsubscribes the mutation observer, but it also clears the collected
records and the seen-identifier set; pause, failure, threshold and
scroll-count are untouched. -/
theorem close_teardown (st : ScannerState) :
    (close st).intervalActive = false ∧
    (close st).observerActive = false ∧
    (close st).results = [] ∧
    (close st).seenPostIds = [] ∧
    (close st).paused = st.paused ∧
    (close st).scrollFailureDetected = st.scrollFailureDetected ∧
    (close st).commentThreshold = st.commentThreshold ∧
    (close st).scrollCount = st.scrollCount := by
  cases hi : st.intervalActive <;> cases ho : st.observerActive <;>
    simp [close, stopScrolling, hi, ho]

/-- Claim C8 counterexample: a concrete state with one collected record
whose teardown empties the store, so the store contents are not unchanged
across teardown. -/
theorem close_discards_counterexample :
    preCloseState.results ≠ [] ∧ (close preCloseState).results = [] :=
  ⟨by decide, by decide⟩

/-- Claim C6 (amended): the tick handler is a no-op exactly on the paused
or terminal-failure flags; there is no in-flight guard. -/
theorem tick_guard (t : Nat) (s : SimState)
    (h : s.scanner.paused = true ∨ s.scanner.scrollFailureDetected = true) :
    simScrollAndScan t s = s := by
  unfold simScrollAndScan
  rcases h with h | h <;> simp [h]

theorem tick_guard_witness : simScrollAndScan 0 pausedSim = pausedSim :=
  tick_guard 0 pausedSim (Or.inl rfl)

/-- Claim C6 counterexample: on a static page the 4000 ms interval tick at
t = 8000 issues a scroll command while the retry-initiated cycle started
at t = 7500 is still awaiting its validation at t = 10000, so two
scroll/validate cycles are in flight at once and the run still ends in
the terminal failure state. -/
theorem tick_overlap_counterexample :
    (simRun 12).overlap = true ∧
    (simRun 12).scanner.scrollFailureDetected = true :=
  ⟨by decide, by decide⟩

theorem handleFail_props (st : ScannerState) :
    (handleScrollFailure st).scrollFailureDetected = true ∧
    (handleScrollFailure st).paused = true ∧
    (handleScrollFailure st).intervalActive = false ∧
    (handleScrollFailure st).scrollRetryCount = st.scrollRetryCount := by
  unfold handleScrollFailure stopScrolling
  split_ifs <;> simp_all

theorem validateScroll_stall (ps : List Post) (e : ScrollEnv) (st : ScannerState)
    (hnp : noProgressStall e) (hc : st.contentLoaded = false) :
    validateScroll ps e st =
      if maxScrollRetries ≤ st.scrollRetryCount + 1 then
        (handleScrollFailure { st with scrollRetryCount := st.scrollRetryCount + 1 },
         .failed)
      else if nearBottomOf e then
        ({ st with scrollRetryCount := st.scrollRetryCount + 1 }, .scheduledRetry)
      else
        ((scanPosts { st with scrollRetryCount := st.scrollRetryCount + 1 } ps).1,
         .scannedAnyway) := by
  obtain ⟨h1, h2, h4⟩ := hnp
  simp only [validateScroll]
  rw [decide_eq_false h1, decide_eq_false h2, hc, h4]
  by_cases hb : nearBottomOf e = true <;>
    by_cases h3 : maxScrollRetries ≤ st.scrollRetryCount + 1 <;>
      simp [hb, h3]

theorem stall_step_lt (ps : List Post) (e : ScrollEnv) (st : ScannerState)
    (hnp : noProgressStall e) (hc : st.contentLoaded = false)
    (h3 : st.scrollRetryCount + 1 < maxScrollRetries) :
    (validateScroll ps e st).1.scrollFailureDetected = st.scrollFailureDetected ∧
    (validateScroll ps e st).1.scrollRetryCount = st.scrollRetryCount + 1 ∧
    (validateScroll ps e st).1.contentLoaded = false ∧
    (validateScroll ps e st).1.paused = st.paused := by
  have h5 : ¬(maxScrollRetries ≤ st.scrollRetryCount + 1) := by omega
  have hfl := scanPostsGo_flags ps { st with scrollRetryCount := st.scrollRetryCount + 1 } 0
  simp only [driverFlags, Prod.mk.injEq] at hfl
  obtain ⟨f1, f2, f3, f4, -⟩ := hfl
  rw [validateScroll_stall ps e st hnp hc, if_neg h5]
  by_cases hb : nearBottomOf e = true
  · simp [hb, hc]
  · simp only [Bool.not_eq_true] at hb
    rw [hc] at f1 f2 f3 f4
    simp [hb, hc, scanPosts, f1, f2, f3, f4]

theorem stall_step_ge (ps : List Post) (e : ScrollEnv) (st : ScannerState)
    (hnp : noProgressStall e) (hc : st.contentLoaded = false)
    (h3 : maxScrollRetries ≤ st.scrollRetryCount + 1) :
    (validateScroll ps e st).1.scrollFailureDetected = true ∧
    (validateScroll ps e st).1.paused = true ∧
    (validateScroll ps e st).1.intervalActive = false := by
  have hp := handleFail_props { st with scrollRetryCount := st.scrollRetryCount + 1 }
  rw [validateScroll_stall ps e st hnp hc, if_pos h3]
  exact ⟨hp.1, hp.2.1, hp.2.2.1⟩

theorem stall_run_lt (ps : List Post) (es : List ScrollEnv) :
    ∀ st : ScannerState, (∀ e ∈ es, noProgressStall e) →
    st.contentLoaded = false →
    st.scrollRetryCount + es.length < maxScrollRetries →
    (runValidates ps es st).scrollFailureDetected = st.scrollFailureDetected ∧
    (runValidates ps es st).scrollRetryCount = st.scrollRetryCount + es.length ∧
    (runValidates ps es st).contentLoaded = false ∧
    (runValidates ps es st).paused = st.paused := by
  induction es with
  | nil => intro st _ hc _; simpa [runValidates] using hc
  | cons e rest ih =>
    intro st hnp hc hlen
    have hstep := stall_step_lt ps e st (hnp e (by simp)) hc
      (by simp only [maxScrollRetries] at hlen ⊢; simp at hlen; omega)
    have hrec := ih (validateScroll ps e st).1
      (fun x hx => hnp x (by simp [hx])) hstep.2.2.1
      (by simp only [maxScrollRetries] at hlen ⊢; simp at hlen; omega)
    have hrw : runValidates ps (e :: rest) st = runValidates ps rest (validateScroll ps e st).1 := rfl
    rw [hrw]
    refine ⟨hrec.1.trans hstep.1, ?_, hrec.2.2.1, hrec.2.2.2.trans hstep.2.2.2⟩
    rw [hrec.2.1, hstep.2.1]
    simp [Nat.add_assoc, Nat.add_comm 1 rest.length]

theorem stall_run_fail (ps : List Post) (es : List ScrollEnv) :
    ∀ st : ScannerState, (∀ e ∈ es, noProgressStall e) →
    st.contentLoaded = false → 1 ≤ es.length →
    st.scrollRetryCount + es.length = maxScrollRetries →
    (runValidates ps es st).scrollFailureDetected = true ∧
    (runValidates ps es st).paused = true ∧
    (runValidates ps es st).intervalActive = false := by
  induction es with
  | nil => intro st _ _ h1 _; simp at h1
  | cons e rest ih =>
    intro st hnp hc _ hlen
    have hrw : runValidates ps (e :: rest) st = runValidates ps rest (validateScroll ps e st).1 := rfl
    rw [hrw]
    by_cases h3 : maxScrollRetries ≤ st.scrollRetryCount + 1
    · have hrest : rest = [] := by
        have : rest.length = 0 := by
          simp only [maxScrollRetries] at h3 hlen; simp at hlen; omega
        exact List.length_eq_zero.mp this
      subst hrest
      have hstep := stall_step_ge ps e st (hnp e (by simp)) hc h3
      simpa [runValidates] using hstep
    · have hstep := stall_step_lt ps e st (hnp e (by simp)) hc (by omega)
      exact ih (validateScroll ps e st).1
        (fun x hx => hnp x (by simp [hx])) hstep.2.2.1
        (by simp only [maxScrollRetries] at hlen h3 ⊢; simp at hlen; omega)
        (by rw [hstep.2.1]; simp only [maxScrollRetries] at hlen ⊢; simp at hlen; omega)

/-- Claim C1: from a fresh retry counter, consecutive no-progress
validations reach the terminal failure state on exactly the
`maxScrollRetries`-th one — the failure flag is still clear after any
shorter stall run (so never on the second with the bound at three), and
the third stall pauses with the failure flag set and the timer
cancelled. -/
theorem retry_bound_exact (ps : List Post) (es : List ScrollEnv) (st : ScannerState)
    (hr : st.scrollRetryCount = 0) (hf : st.scrollFailureDetected = false)
    (hc : st.contentLoaded = false) (hnp : ∀ e ∈ es, noProgressStall e) :
    (es.length < maxScrollRetries →
       (runValidates ps es st).scrollFailureDetected = false ∧
       (runValidates ps es st).scrollRetryCount = es.length) ∧
    (es.length = maxScrollRetries →
       (runValidates ps es st).scrollFailureDetected = true ∧
       (runValidates ps es st).paused = true ∧
       (runValidates ps es st).intervalActive = false) := by
  constructor
  · intro hlen
    have h := stall_run_lt ps es st hnp hc (by rw [hr, Nat.zero_add]; exact hlen)
    exact ⟨h.1.trans hf, by rw [h.2.1, hr]; simp⟩
  · intro hlen
    exact stall_run_fail ps es st hnp hc (by rw [hlen]; decide)
      (by rw [hr, Nat.zero_add]; exact hlen)

theorem retry_bound_exact_witness :
    (runValidates [] [envStall, envStall] initScanner).scrollFailureDetected = false ∧
    (runValidates [] [envStall, envStall, envStall] initScanner).scrollFailureDetected = true ∧
    (runValidates [] [envStall, envStall, envStall] initScanner).paused = true := by
  refine ⟨?_, ?_, ?_⟩
  · exact ((retry_bound_exact [] [envStall, envStall] initScanner rfl rfl rfl
      (by decide)).1 (by decide)).1
  · exact ((retry_bound_exact [] [envStall, envStall, envStall] initScanner rfl rfl rfl
      (by decide)).2 rfl).1
  · exact ((retry_bound_exact [] [envStall, envStall, envStall] initScanner rfl rfl rfl
      (by decide)).2 rfl).2.1

theorem isValidId_iff (st : ScannerState) (id : Chars) :
    isValidId st id = true ↔
      id.isEmpty = false ∧ id ∉ st.seenPostIds ∧ hasSubstr id activityTag = true := by
  simp [isValidId, and_assoc]

theorem scanStep_seen_mono (st : ScannerState) (p : Post) (x : Chars)
    (hx : x ∈ st.seenPostIds) : x ∈ (scanStep st p).1.seenPostIds := by
  unfold scanStep
  cases getPostDataId p with
  | none => exact hx
  | some id =>
    dsimp only
    split_ifs with hv hcc
    · rw [addResult_fst_seen]
      exact List.mem_cons_of_mem _ hx
    · exact List.mem_cons_of_mem _ hx
    · exact hx

theorem scanGo_seen_mono (ps : List Post) :
    ∀ (st : ScannerState) (f : Nat) (x : Chars), x ∈ st.seenPostIds →
    x ∈ (scanPostsGo st f ps).1.seenPostIds := by
  induction ps with
  | nil => intro st f x hx; exact hx
  | cons p rest ih =>
    intro st f x hx
    exact ih (scanStep st p).1 (if (scanStep st p).2 then f + 1 else f) x
      (scanStep_seen_mono st p x hx)

theorem scanStep_seen_adds (st : ScannerState) (p : Post) (id : Chars)
    (hid : getPostDataId p = some id) (h1 : id.isEmpty = false)
    (h2 : hasSubstr id activityTag = true) :
    id ∈ (scanStep st p).1.seenPostIds := by
  unfold scanStep
  rw [hid]
  dsimp only
  by_cases hv : isValidId st id = true
  · rw [if_pos hv]
    split_ifs with hcc
    · rw [addResult_fst_seen]
      exact List.mem_cons_self _ _
    · exact List.mem_cons_self _ _
  · have hseen : id ∈ st.seenPostIds := by
      by_contra hns
      exact hv ((isValidId_iff st id).mpr ⟨h1, hns, h2⟩)
    rw [if_neg hv]
    exact hseen

theorem scanGo_seen_after (ps : List Post) :
    ∀ (st : ScannerState) (f : Nat) (p : Post), p ∈ ps →
    ∀ id : Chars, getPostDataId p = some id → id.isEmpty = false →
    hasSubstr id activityTag = true →
    id ∈ (scanPostsGo st f ps).1.seenPostIds := by
  induction ps with
  | nil => intro st f p hp; simp at hp
  | cons q rest ih =>
    intro st f p hp id hid h1 h2
    rcases List.mem_cons.mp hp with rfl | hp2
    · exact scanGo_seen_mono rest (scanStep st p).1
        (if (scanStep st p).2 then f + 1 else f) id
        (scanStep_seen_adds st p id hid h1 h2)
    · exact ih (scanStep st q).1 (if (scanStep st q).2 then f + 1 else f) p hp2 id hid h1 h2

theorem scanStep_skip (st : ScannerState) (p : Post)
    (h : isValidPost st (getPostDataId p) = false) : scanStep st p = (st, false) := by
  unfold scanStep
  unfold isValidPost at h
  cases hid : getPostDataId p with
  | none => rfl
  | some id =>
    rw [hid] at h
    dsimp only at h ⊢
    rw [if_neg (by simp [h])]

theorem scanGo_noop (ps : List Post) :
    ∀ (st : ScannerState) (f : Nat),
    (∀ p ∈ ps, isValidPost st (getPostDataId p) = false) →
    scanPostsGo st f ps = (st, f) := by
  induction ps with
  | nil => intro st f _; rfl
  | cons p rest ih =>
    intro st f hall
    have hstep := scanStep_skip st p (hall p (by simp))
    have hrw : scanPostsGo st f (p :: rest) =
        scanPostsGo (scanStep st p).1 (if (scanStep st p).2 then f + 1 else f) rest := rfl
    rw [hrw, hstep]
    exact ih st f (fun q hq => hall q (by simp [hq]))

/-- Claim C3: extraction is idempotent on an unchanged document — a second
`scanPosts` over the same posts leaves the state untouched and finds zero
new records, because every processable identifier is already in
`seenPostIds`. -/
theorem extract_idempotent (st : ScannerState) (ps : List Post) :
    scanPosts (scanPosts st ps).1 ps = ((scanPosts st ps).1, 0) := by
  apply scanGo_noop
  intro p hp
  cases hid : getPostDataId p with
  | none => rfl
  | some id =>
    show isValidId (scanPosts st ps).1 id = false
    by_cases h1 : id.isEmpty = false
    · by_cases h2 : hasSubstr id activityTag = true
      · have hseen : id ∈ (scanPosts st ps).1.seenPostIds :=
          scanGo_seen_after ps st 0 p hp id hid h1 h2
        simp [isValidId, hseen]
      · simp [isValidId, Bool.eq_false_iff.mpr h2]
    · have h1e : id.isEmpty = true := by
        cases he : id.isEmpty
        · exact absurd he h1
        · rfl
      simp [isValidId, h1e]

theorem scanStep_results (st : ScannerState) (p : Post) (r : Result)
    (hr : r ∈ (scanStep st p).1.results) :
    r ∈ st.results ∨ st.commentThreshold ≤ r.comments := by
  unfold scanStep at hr
  cases hid : getPostDataId p with
  | none => rw [hid] at hr; exact Or.inl hr
  | some id =>
    rw [hid] at hr
    dsimp only at hr
    by_cases hv : isValidId st id = true
    · rw [if_pos hv] at hr
      by_cases hcc : st.commentThreshold ≤ getCommentCount p
      · rw [if_pos hcc] at hr
        unfold addResult at hr
        by_cases hdup :
            (({ st with seenPostIds := id :: st.seenPostIds } : ScannerState).results.any
              (fun x => decide (x.link = (mkRec id (getCommentCount p) p).link))) = true
        · rw [if_pos hdup] at hr
          exact Or.inl hr
        · rw [if_neg hdup] at hr
          rcases List.mem_cons.mp hr with rfl | hold
          · exact Or.inr hcc
          · exact Or.inl hold
      · rw [if_neg hcc] at hr
        exact Or.inl hr
    · rw [if_neg hv] at hr
      exact Or.inl hr

theorem scanGo_results (ps : List Post) :
    ∀ (st : ScannerState) (f : Nat) (r : Result),
    r ∈ (scanPostsGo st f ps).1.results →
    r ∈ st.results ∨ st.commentThreshold ≤ r.comments := by
  induction ps with
  | nil => intro st f r hr; exact Or.inl hr
  | cons p rest ih =>
    intro st f r hr
    have ht : (scanStep st p).1.commentThreshold = st.commentThreshold := by
      have := scanStep_flags st p
      simp only [driverFlags, Prod.mk.injEq] at this
      exact this.2.2.2.2.1
    rcases ih (scanStep st p).1 (if (scanStep st p).2 then f + 1 else f) r hr with h | h
    · exact scanStep_results st p r h
    · exact Or.inr (ht ▸ h)

/-- Claim C4: a record is collected only when its metric reaches the
current threshold, and on the concrete scenario with metrics 250, 50, 10
and threshold 100 exactly one record (metric 250) is returned, with an
immediate second extraction returning zero new records. -/
theorem threshold_gate :
    (∀ (st : ScannerState) (ps : List Post) (r : Result),
       r ∈ (scanPosts st ps).1.results →
       r ∈ st.results ∨ st.commentThreshold ≤ r.comments) ∧
    ((scanPosts initScanner postsA).2 = 1 ∧
     (scanPosts initScanner postsA).1.results.map Result.comments = [250] ∧
     (scanPosts (scanPosts initScanner postsA).1 postsA).2 = 0) := by
  refine ⟨fun st ps r hr => scanGo_results ps st 0 r hr, by decide, by decide, by decide⟩

theorem threshold_gate_witness :
    mkRec "urn:li:activity:7001".toList 250 postA1 ∈ initScanner.results ∨
    initScanner.commentThreshold ≤ (mkRec "urn:li:activity:7001".toList 250 postA1).comments :=
  threshold_gate.1 initScanner postsA (mkRec "urn:li:activity:7001".toList 250 postA1)
    (by decide)

theorem fdm_val (cs : Chars) :
    (match firstDigitMatch cs with | some run => decToNat run | none => 0)
      = decToNat ((cs.dropWhile (fun c => !c.isDigit)).takeWhile Char.isDigit) := by
  induction cs with
  | nil => rfl
  | cons c rest ih =>
    by_cases hd : c.isDigit = true
    · simp [firstDigitMatch, List.dropWhile_cons, hd]
    · have hd2 : c.isDigit = false := Bool.eq_false_iff.mpr hd
      simp [firstDigitMatch, List.dropWhile_cons, hd2, ih]

/-- Claim C7: metric extraction is total — it always equals the decimal
value of the first digit run of the cleaned text (zero when none), the
absent comment control yields zero, and every processable item is marked
seen regardless of its metric. -/
theorem metric_extraction_total :
    (∀ s : Chars, extractNumber s =
       decToNat (((cleanText s).dropWhile (fun c => !c.isDigit)).takeWhile Char.isDigit)) ∧
    (∀ p : Post, p.button = none → getCommentCount p = 0) ∧
    (∀ (st : ScannerState) (ps : List Post) (p : Post) (id : Chars),
       p ∈ ps → getPostDataId p = some id → id.isEmpty = false →
       hasSubstr id activityTag = true →
       id ∈ (scanPosts st ps).1.seenPostIds) := by
  refine ⟨fun s => ?_, fun p h => ?_, fun st ps p id hp hid h1 h2 => ?_⟩
  · unfold extractNumber
    exact fdm_val (cleanText s)
  · unfold getCommentCount
    rw [h]
  · exact scanGo_seen_after ps st 0 p hp id hid h1 h2

theorem metric_extraction_total_witness :
    extractNumber " 1,234 Kommentare".toList =
      decToNat (((cleanText " 1,234 Kommentare".toList).dropWhile
        (fun c => !c.isDigit)).takeWhile Char.isDigit) ∧
    getCommentCount { ownDataId := none, ancestorDataId := none, button := none } = 0 ∧
    "urn:li:activity:7001".toList ∈ (scanPosts initScanner postsA).1.seenPostIds :=
  ⟨metric_extraction_total.1 " 1,234 Kommentare".toList,
   metric_extraction_total.2.1 _ rfl,
   metric_extraction_total.2.2 initScanner postsA postA1 "urn:li:activity:7001".toList
     (by decide) (by decide) (by decide) (by decide)⟩

theorem addResult_inv (st : ScannerState) (r : Result)
    (hpf : ∃ i, r.link = linkBase ++ i) (h : StoreInv st) :
    StoreInv (addResult st r).1 := by
  unfold addResult
  split_ifs with hdup
  · exact h
  · have hnot : r.link ∉ st.results.map Result.link := by
      intro hmem
      obtain ⟨x, hx, hxl⟩ := List.mem_map.mp hmem
      exact hdup (List.any_eq_true.mpr ⟨x, hx, by simp [hxl]⟩)
    constructor
    · intro x hx
      rcases List.mem_cons.mp hx with rfl | hx2
      · exact hpf
      · exact h.1 x hx2
    · exact List.nodup_cons.mpr ⟨hnot, h.2⟩

theorem scanStep_inv (st : ScannerState) (p : Post) (h : StoreInv st) :
    StoreInv (scanStep st p).1 := by
  unfold scanStep
  cases getPostDataId p with
  | none => exact h
  | some id =>
    dsimp only
    split_ifs with hv hcc
    · exact addResult_inv _ _ ⟨id, rfl⟩ h
    · exact h
    · exact h

theorem scanGo_inv (ps : List Post) :
    ∀ (st : ScannerState) (f : Nat), StoreInv st → StoreInv (scanPostsGo st f ps).1 := by
  induction ps with
  | nil => intro st f h; exact h
  | cons p rest ih =>
    intro st f h
    exact ih (scanStep st p).1 (if (scanStep st p).2 then f + 1 else f)
      (scanStep_inv st p h)

theorem runOp_inv (st : ScannerState) (op : ScannerOp) (h : StoreInv st) :
    StoreInv (runOp st op) := by
  cases op with
  | scanOp posts => exact scanGo_inv posts st 0 h
  | thresholdOp v =>
    show StoreInv (setThreshold st v)
    unfold setThreshold
    split_ifs
    · exact h
    · exact h
  | resetOp => exact h
  | closeOp =>
    show StoreInv (close st)
    have hres : (close st).results = [] := by
      cases hi : st.intervalActive <;> cases ho : st.observerActive <;>
        simp [close, stopScrolling, hi, ho]
    constructor
    · rw [hres]; intro r hr; simp at hr
    · rw [hres]; simp

theorem runOps_inv (ops : List ScannerOp) : StoreInv (runOps ops) := by
  have hgen : ∀ (l : List ScannerOp) (st : ScannerState),
      StoreInv st → StoreInv (l.foldl runOp st) := by
    intro l
    induction l with
    | nil => intro st h; exact h
    | cons op rest ih => intro st h; exact ih (runOp st op) (runOp_inv st op h)
  exact hgen ops initScanner ⟨by simp [initScanner], by simp [initScanner]⟩

/-- Claim C2: identifier uniqueness is an invariant of the store over every
operation sequence, `addResult` rejects a record whose identifier is
already present, and otherwise inserts it at the head of the list. -/
theorem store_id_unique :
    (∀ ops : List ScannerOp, ((runOps ops).results.map recIdOf).Nodup) ∧
    (∀ (st : ScannerState) (i : Chars) (cc : Nat) (p : Post),
       (∃ r ∈ st.results, r.link = linkBase ++ i) →
       addResult st (mkRec i cc p) = (st, false)) ∧
    (∀ (st : ScannerState) (i : Chars) (cc : Nat) (p : Post),
       (∀ r ∈ st.results, r.link ≠ linkBase ++ i) →
       addResult st (mkRec i cc p) =
         ({ st with results := mkRec i cc p :: st.results }, true)) := by
  refine ⟨fun ops => ?_, fun st i cc p hdup => ?_, fun st i cc p hfresh => ?_⟩
  · obtain ⟨hpf, hnd⟩ := runOps_inv ops
    have hmap : (runOps ops).results.map recIdOf
        = ((runOps ops).results.map Result.link).map (fun l => l.drop linkBase.length) := by
      rw [List.map_map]; rfl
    rw [hmap]
    refine hnd.map_on ?_
    intro x hx y hy hxy
    obtain ⟨rx, hrx, hrxe⟩ := List.mem_map.mp hx
    obtain ⟨ry, hry, hrye⟩ := List.mem_map.mp hy
    obtain ⟨i, hi⟩ := hpf rx hrx
    obtain ⟨j, hj⟩ := hpf ry hry
    rw [← hrxe, ← hrye] at hxy ⊢
    rw [hi, hj] at hxy ⊢
    rw [List.drop_left, List.drop_left] at hxy
    rw [hxy]
  · obtain ⟨r, hr, hl⟩ := hdup
    unfold addResult
    rw [if_pos (List.any_eq_true.mpr ⟨r, hr, by simp [hl, mkRec]⟩)]
  · unfold addResult
    rw [if_neg]
    simp only [List.any_eq_true, decide_eq_true_eq, not_exists]
    intro r
    simp only [not_and]
    intro hr
    exact hfresh r hr

theorem store_id_unique_witness :
    addResult { initScanner with results := [mkRec "urn:li:activity:7001".toList 250 postA1] }
        (mkRec "urn:li:activity:7001".toList 99 postA2) =
      ({ initScanner with results := [mkRec "urn:li:activity:7001".toList 250 postA1] }, false) ∧
    addResult initScanner (mkRec "urn:li:activity:7001".toList 99 postA2) =
      ({ initScanner with results := [mkRec "urn:li:activity:7001".toList 99 postA2] }, true) :=
  ⟨store_id_unique.2.1 _ _ 99 postA2
     ⟨mkRec "urn:li:activity:7001".toList 250 postA1, by simp, rfl⟩,
   store_id_unique.2.2 _ _ 99 postA2 (by simp [initScanner])⟩

theorem any_mkRec (e1 : Chars) (acc : List (Chars × Nat × Post)) :
    ((acc.map (fun e => mkRec e.1 e.2.1 e.2.2)).any
        (fun x => decide (x.link = linkBase ++ e1)))
      = acc.any (fun x => decide (x.1 = e1)) := by
  induction acc with
  | nil => rfl
  | cons a t ih =>
    rw [List.map_cons, List.any_cons, List.any_cons, ih]
    by_cases hcase : a.1 = e1
    · simp [mkRec, hcase]
    · have hne : ¬(linkBase ++ a.1 = linkBase ++ e1) :=
        fun hh => hcase (List.append_cancel_left hh)
      simp [mkRec, hcase, hne]

theorem linkStore_eq (ins : List (Chars × Nat × Post)) :
    ∀ (st : ScannerState) (acc : List (Chars × Nat × Post)),
    st.results = acc.map (fun e => mkRec e.1 e.2.1 e.2.2) →
    (ins.foldl (fun s e => (addResult s (mkRec e.1 e.2.1 e.2.2)).1) st).results
      = (ins.foldl addIfNewById acc).map (fun e => mkRec e.1 e.2.1 e.2.2) := by
  induction ins with
  | nil => intro st acc h; simpa using h
  | cons e rest ih =>
    intro st acc h
    have hlink : (mkRec e.1 e.2.1 e.2.2).link = linkBase ++ e.1 := rfl
    have hany : (st.results.any (fun x => decide (x.link = (mkRec e.1 e.2.1 e.2.2).link)))
        = acc.any (fun x => decide (x.1 = e.1)) := by
      rw [hlink, h]
      exact any_mkRec e.1 acc
    have hfold1 : (e :: rest).foldl (fun s e2 => (addResult s (mkRec e2.1 e2.2.1 e2.2.2)).1) st
        = rest.foldl (fun s e2 => (addResult s (mkRec e2.1 e2.2.1 e2.2.2)).1)
            (addResult st (mkRec e.1 e.2.1 e.2.2)).1 := rfl
    have hfold2 : (e :: rest).foldl addIfNewById acc
        = rest.foldl addIfNewById (addIfNewById acc e) := rfl
    rw [hfold1, hfold2]
    by_cases hdup : acc.any (fun x => decide (x.1 = e.1)) = true
    · have hstep : (addResult st (mkRec e.1 e.2.1 e.2.2)).1 = st := by
        unfold addResult
        rw [if_pos (hany.trans hdup)]
      have hid : addIfNewById acc e = acc := by
        unfold addIfNewById
        rw [if_pos hdup]
      rw [hstep, hid]
      exact ih st acc h
    · have hstep : (addResult st (mkRec e.1 e.2.1 e.2.2)).1
          = { st with results := mkRec e.1 e.2.1 e.2.2 :: st.results } := by
        unfold addResult
        rw [if_neg (by rw [hany]; exact hdup)]
      have hid : addIfNewById acc e = e :: acc := by
        unfold addIfNewById
        rw [if_neg hdup]
      rw [hstep, hid]
      exact ih { st with results := mkRec e.1 e.2.1 e.2.2 :: st.results } (e :: acc)
        (by simp [h])

/-- Claim C10: deduplication keyed on the synthesized link coincides with
deduplication keyed on the raw identifier — over every insertion sequence
the link-keyed store is exactly the identifier-keyed store mapped through
the link synthesis. -/
theorem link_dedup_eq_id_dedup (ins : List (Chars × Nat × Post)) :
    (runLinkStore ins).results
      = (runIdStore ins).map (fun e => mkRec e.1 e.2.1 e.2.2) :=
  linkStore_eq ins initScanner [] rfl

theorem digitChar_val (d : Nat) (h : d < 10) : (digitChar d).toNat - 48 = d := by
  interval_cases d <;> rfl

theorem natToDecAux_acc (fuel : Nat) :
    ∀ (n : Nat) (acc : Chars), n < fuel →
    natToDecAux fuel n acc = natToDecAux fuel n [] ++ acc := by
  induction fuel with
  | zero => intro n acc h; omega
  | succ f ihf =>
    intro n acc h
    unfold natToDecAux
    by_cases h10 : n < 10
    · rw [if_pos h10, if_pos h10]; rfl
    · rw [if_neg h10, if_neg h10]
      have hn : n / 10 < f := by
        have h1 : n / 10 < n := Nat.div_lt_self (by omega) (by omega)
        omega
      rw [ihf (n / 10) (digitChar (n % 10) :: acc) hn,
          ihf (n / 10) [digitChar (n % 10)] hn]
      rw [List.append_assoc]
      rfl

theorem natToDecAux_fuel (f1 : Nat) :
    ∀ (f2 n : Nat) (acc : Chars), n < f1 → n < f2 →
    natToDecAux f1 n acc = natToDecAux f2 n acc := by
  induction f1 with
  | zero => intro f2 n acc h _; omega
  | succ f ih =>
    intro f2 n acc h1 h2
    cases f2 with
    | zero => omega
    | succ g =>
      unfold natToDecAux
      by_cases h10 : n < 10
      · rw [if_pos h10, if_pos h10]
      · rw [if_neg h10, if_neg h10]
        have hna : n / 10 < n := Nat.div_lt_self (by omega) (by omega)
        exact ih g (n / 10) (digitChar (n % 10) :: acc) (by omega) (by omega)

theorem decToNat_append (xs ys : Chars) :
    decToNat (xs ++ ys) = ys.foldl (fun a c => 10 * a + (c.toNat - 48)) (decToNat xs) := by
  unfold decToNat
  rw [List.foldl_append]

theorem decToNat_natToDec (n : Nat) : decToNat (natToDec n) = n := by
  induction n using Nat.strong_induction_on with
  | _ n ih =>
    by_cases h10 : n < 10
    · have h1 : natToDec n = [digitChar n] := by
        show (if n < 10 then digitChar n :: []
              else natToDecAux n (n / 10) (digitChar (n % 10) :: [])) = _
        rw [if_pos h10]
      rw [h1]
      show 10 * 0 + ((digitChar n).toNat - 48) = n
      rw [digitChar_val n h10]
      omega
    · have hdiv : n / 10 < n := Nat.div_lt_self (by omega) (by omega)
      have h1 : natToDec n = natToDecAux n (n / 10) [digitChar (n % 10)] := by
        show (if n < 10 then digitChar n :: []
              else natToDecAux n (n / 10) (digitChar (n % 10) :: [])) = _
        rw [if_neg h10]
      rw [h1, natToDecAux_acc n (n / 10) _ hdiv,
          natToDecAux_fuel n (n / 10 + 1) (n / 10) [] hdiv (Nat.lt_succ_self _)]
      rw [show natToDecAux (n / 10 + 1) (n / 10) [] = natToDec (n / 10) from rfl]
      rw [decToNat_append]
      show 10 * decToNat (natToDec (n / 10)) + ((digitChar (n % 10)).toNat - 48) = n
      rw [ih (n / 10) hdiv, digitChar_val (n % 10) (Nat.mod_lt _ (by omega))]
      omega

theorem joinWith_cons (sep x : Chars) (l : List Chars) (h : l ≠ []) :
    joinWith sep (x :: l) = x ++ sep ++ joinWith sep l := by
  cases l with
  | nil => exact absurd rfl h
  | cons y t => rfl

theorem csvAux_startField_quote (rest : Chars) (field : Chars) (row : List Chars)
    (rows : List (List Chars)) :
    csvAux .startField ('"' :: rest) field row rows = csvAux .inQuotes rest [] row rows := by
  show (if ('"' : Char) = '"' then csvAux .inQuotes rest [] row rows else none) = _
  rw [if_pos rfl]

theorem csvAux_inQuotes_quote (rest : Chars) (field : Chars) (row : List Chars)
    (rows : List (List Chars)) :
    csvAux .inQuotes ('"' :: rest) field row rows = csvAux .afterQuote rest field row rows := by
  show (if ('"' : Char) = '"' then csvAux .afterQuote rest field row rows
        else csvAux .inQuotes rest ('"' :: field) row rows) = _
  rw [if_pos rfl]

theorem csvAux_inQuotes_char (c : Char) (hc : c ≠ '"') (rest : Chars) (field : Chars)
    (row : List Chars) (rows : List (List Chars)) :
    csvAux .inQuotes (c :: rest) field row rows =
      csvAux .inQuotes rest (c :: field) row rows := by
  show (if c = '"' then csvAux .afterQuote rest field row rows
        else csvAux .inQuotes rest (c :: field) row rows) = _
  rw [if_neg hc]

theorem csvAux_afterQuote_quote (rest : Chars) (field : Chars) (row : List Chars)
    (rows : List (List Chars)) :
    csvAux .afterQuote ('"' :: rest) field row rows =
      csvAux .inQuotes rest ('"' :: field) row rows := by
  show (if ('"' : Char) = '"' then csvAux .inQuotes rest ('"' :: field) row rows
        else if ('"' : Char) = ',' then csvAux .startField rest [] (field.reverse :: row) rows
        else if ('"' : Char) = '\n' then
          csvAux .startField rest [] [] ((field.reverse :: row).reverse :: rows)
        else none) = _
  rw [if_pos rfl]

theorem csvAux_afterQuote_comma (rest : Chars) (field : Chars) (row : List Chars)
    (rows : List (List Chars)) :
    csvAux .afterQuote (',' :: rest) field row rows =
      csvAux .startField rest [] (field.reverse :: row) rows := by
  show (if (',' : Char) = '"' then csvAux .inQuotes rest ('"' :: field) row rows
        else if (',' : Char) = ',' then csvAux .startField rest [] (field.reverse :: row) rows
        else if (',' : Char) = '\n' then
          csvAux .startField rest [] [] ((field.reverse :: row).reverse :: rows)
        else none) = _
  rw [if_neg (by decide), if_pos rfl]

theorem csvAux_afterQuote_newline (rest : Chars) (field : Chars) (row : List Chars)
    (rows : List (List Chars)) :
    csvAux .afterQuote ('\n' :: rest) field row rows =
      csvAux .startField rest [] [] ((field.reverse :: row).reverse :: rows) := by
  show (if ('\n' : Char) = '"' then csvAux .inQuotes rest ('"' :: field) row rows
        else if ('\n' : Char) = ',' then csvAux .startField rest [] (field.reverse :: row) rows
        else if ('\n' : Char) = '\n' then
          csvAux .startField rest [] [] ((field.reverse :: row).reverse :: rows)
        else none) = _
  rw [if_neg (by decide), if_neg (by decide), if_pos rfl]

theorem csvAux_afterQuote_nil (field : Chars) (row : List Chars)
    (rows : List (List Chars)) :
    csvAux .afterQuote [] field row rows =
      some (((field.reverse :: row).reverse :: rows).reverse) := rfl

theorem csvAux_esc (f : Chars) :
    ∀ (rest field : Chars) (row : List Chars) (rows : List (List Chars)),
    csvAux .inQuotes (escBody f ++ '"' :: rest) field row rows =
    csvAux .afterQuote rest (f.reverse ++ field) row rows := by
  induction f with
  | nil =>
    intro rest field row rows
    show csvAux .inQuotes ('"' :: rest) field row rows = _
    rw [csvAux_inQuotes_quote]
    rfl
  | cons c cs ih =>
    intro rest field row rows
    by_cases hc : c = '"'
    · subst hc
      have he : escBody ('"' :: cs) ++ '"' :: rest
          = '"' :: '"' :: (escBody cs ++ '"' :: rest) := by
        simp [escBody]
      rw [he, csvAux_inQuotes_quote, csvAux_afterQuote_quote, ih rest ('"' :: field) row rows]
      have harg : ('"' :: cs).reverse ++ field = cs.reverse ++ ('"' :: field) := by simp
      rw [harg]
    · have he : escBody (c :: cs) ++ '"' :: rest = c :: (escBody cs ++ '"' :: rest) := by
        simp [escBody, hc]
      rw [he, csvAux_inQuotes_char c hc, ih rest (c :: field) row rows]
      have harg : (c :: cs).reverse ++ field = cs.reverse ++ (c :: field) := by simp
      rw [harg]

theorem csvAux_row (fs : List Chars) (f : Chars) :
    ∀ (rest : Chars) (row : List Chars) (rows : List (List Chars)),
    csvAux .startField (encodeRow (fs ++ [f]) ++ rest) [] row rows =
    csvAux .afterQuote rest f.reverse (fs.reverse ++ row) rows := by
  induction fs with
  | nil =>
    intro rest row rows
    have h1 : encodeRow ([] ++ [f]) ++ rest = '"' :: (escBody f ++ '"' :: rest) := by
      simp [encodeRow, joinWith, escapeCell]
    rw [h1, csvAux_startField_quote, csvAux_esc]
    simp
  | cons g gs ihg =>
    intro rest row rows
    have h1 : encodeRow ((g :: gs) ++ [f]) ++ rest
        = '"' :: (escBody g ++ '"' :: ',' :: (encodeRow (gs ++ [f]) ++ rest)) := by
      show joinWith [','] (((g :: gs) ++ [f]).map escapeCell) ++ rest = _
      rw [List.cons_append, List.map_cons, joinWith_cons _ _ _ (by simp)]
      simp [escapeCell, encodeRow, List.append_assoc]
    rw [h1, csvAux_startField_quote, csvAux_esc, csvAux_afterQuote_comma]
    have h3 : (List.reverse g ++ ([] : Chars)).reverse = g := by simp
    rw [h3, ihg rest (g :: row) rows]
    have h4 : (g :: gs).reverse ++ row = gs.reverse ++ (g :: row) := by simp
    rw [h4]

theorem csvAux_rows (rs : List (List Chars)) :
    ∀ acc : List (List Chars), rs ≠ [] → (∀ row ∈ rs, row ≠ []) →
    csvAux .startField (joinWith ['\n'] (rs.map encodeRow)) [] [] acc
      = some (acc.reverse ++ rs) := by
  induction rs with
  | nil => intro acc h _; exact absurd rfl h
  | cons r rest ih =>
    intro acc _ hall
    have hr : r ≠ [] := hall r (by simp)
    obtain ⟨ds, lst, hds⟩ : ∃ ds lst, r = ds ++ [lst] := by
      rcases List.eq_nil_or_concat r with h0 | ⟨L, b, hlb⟩
      · exact absurd h0 hr
      · exact ⟨L, b, by rw [hlb, List.concat_eq_append]⟩
    cases rest with
    | nil =>
      have h1 : joinWith ['\n'] ((r :: []).map encodeRow) = encodeRow (ds ++ [lst]) ++ [] := by
        rw [hds]; simp [joinWith]
      rw [h1, csvAux_row ds lst [] [] acc, csvAux_afterQuote_nil]
      rw [hds]
      simp
    | cons r2 rest2 =>
      have h1 : joinWith ['\n'] ((r :: r2 :: rest2).map encodeRow)
          = encodeRow (ds ++ [lst]) ++
              ('\n' :: joinWith ['\n'] ((r2 :: rest2).map encodeRow)) := by
        rw [List.map_cons, joinWith_cons _ _ _ (by simp), hds]
        simp [List.append_assoc]
      rw [h1, csvAux_row ds lst _ [] acc, csvAux_afterQuote_newline]
      have h3 : ((List.reverse lst).reverse :: (List.reverse ds ++ [])).reverse
          = ds ++ [lst] := by simp
      rw [h3, ih ((ds ++ [lst]) :: acc) (by simp) (fun x hx => hall x (by simp [hx]))]
      rw [hds]
      simp

theorem parse_encode (rs : List (List Chars)) (hne : rs ≠ [])
    (hall : ∀ row ∈ rs, row ≠ []) :
    parseCSV (joinWith ['\n'] (rs.map encodeRow)) = some rs := by
  unfold parseCSV
  rw [csvAux_rows rs [] hne hall]
  rfl

/-- Claim C5: the tabular export is lossless — parsing the encoded CSV of
any record set recovers exactly the header and one row per record holding
its exported identifier, its link and the decimal rendering of its metric,
and the decimal rendering itself is invertible, so `id`, `url` and
`metricValue` are all recovered unchanged, whatever quotes, commas or
other characters the fields contain. -/
theorem csv_round_trip :
    (∀ results : List Result, parseCSV (csvContent results) = some (csvRowsOf results)) ∧
    (∀ n : Nat, decToNat (natToDec n) = n) := by
  constructor
  · intro results
    unfold csvContent
    apply parse_encode
    · simp [csvRowsOf]
    · intro row hrow
      unfold csvRowsOf at hrow
      rcases List.mem_cons.mp hrow with rfl | hmem
      · simp [csvHeader]
      · obtain ⟨r, -, hre⟩ := List.mem_map.mp hmem
        rw [← hre]
        simp
  · exact decToNat_natToDec